import Mathlib

/-!
Verification of the record-reconciliation core of the Utilities repository
(`CSV_Email_Prep.py`): email validation and splitting, name parsing, the
email-keyed merge of two customer tables, and the status annotator.

Python strings are modelled as `List Char` (ASCII fragment of the Python
semantics), records (CSV dict rows) as insertion-ordered association lists
from field name to value, and the merged table as an insertion-ordered
association list from email key to record, mirroring Python `dict`.
-/

namespace Utilities

/-- ASCII whitespace recognised by Python's `\s` and `str.strip`/`str.split`. -/
def isPySpace (c : Char) : Bool :=
  decide (c.toNat = 32 ∨ c.toNat = 9 ∨ c.toNat = 10 ∨ c.toNat = 13 ∨ c.toNat = 11 ∨ c.toNat = 12)

/-- ASCII decimal digit (`str.isdigit` on the ASCII fragment). -/
def isDigitC (c : Char) : Bool :=
  decide (48 ≤ c.toNat ∧ c.toNat ≤ 57)

/-- ASCII letter. -/
def isAlphaC (c : Char) : Bool :=
  decide ((65 ≤ c.toNat ∧ c.toNat ≤ 90) ∨ (97 ≤ c.toNat ∧ c.toNat ≤ 122))

/-- Word character for the regex class `\w` (ASCII): letter, digit or underscore. -/
def isWordC (c : Char) : Bool :=
  isAlphaC c || isDigitC c || decide (c.toNat = 95)

/-- Character class `[a-zA-Z0-9._%+-]` (local part of the email regex). -/
def isLocalC (c : Char) : Bool :=
  isAlphaC c || isDigitC c ||
    decide (c.toNat = 46 ∨ c.toNat = 95 ∨ c.toNat = 37 ∨ c.toNat = 43 ∨ c.toNat = 45)

/-- Character class `[a-zA-Z0-9.-]` (domain part of the email regex). -/
def isDomC (c : Char) : Bool :=
  isAlphaC c || isDigitC c || decide (c.toNat = 46 ∨ c.toNat = 45)

/-- `str.lower` on one ASCII character. -/
def lowerC (c : Char) : Char :=
  if 65 ≤ c.toNat ∧ c.toNat ≤ 90 then Char.ofNat (c.toNat + 32) else c

/-- `str.upper` on one ASCII character. -/
def upperC (c : Char) : Char :=
  if 97 ≤ c.toNat ∧ c.toNat ≤ 122 then Char.ofNat (c.toNat - 32) else c

/-- Python `str.strip()`: drop whitespace from both ends. -/
def pyStrip (s : List Char) : List Char :=
  ((s.dropWhile isPySpace).reverse.dropWhile isPySpace).reverse

/-- Python `str.lower()` (ASCII fragment). -/
def pyLower (s : List Char) : List Char :=
  s.map lowerC

/-- Python `str.title()`: a letter is uppercased when the previous character is
not a letter, lowercased otherwise (`prev` records whether the previous
character was a letter). -/
def pyTitleAux : Bool → List Char → List Char
  | _, [] => []
  | prev, c :: rest =>
    if isAlphaC c then
      (if prev then lowerC c else upperC c) :: pyTitleAux true rest
    else
      c :: pyTitleAux false rest

/-- Python `str.title()` on a whole string. -/
def pyTitle (s : List Char) : List Char :=
  pyTitleAux false s

/-- Python `needle in hay` (substring containment, `List Char` strings). -/
def subL (n : List Char) : List Char → Bool
  | [] => n.isEmpty
  | c :: rest => n.isPrefixOf (c :: rest) || subL n rest

/-- Number of positions of `hay` at which `n` occurs as a substring. -/
def occL (n : List Char) : List Char → Nat
  | [] => 0
  | c :: rest => (if n.isPrefixOf (c :: rest) then 1 else 0) + occL n rest

/-- Python `str.split()` with no argument: split on runs of whitespace,
dropping empty parts (`acc` accumulates the current token reversed). -/
def pySplitWSAux : List Char → List Char → List (List Char)
  | acc, [] => if acc.isEmpty then [] else [acc.reverse]
  | acc, c :: rest =>
    if isPySpace c then
      if acc.isEmpty then pySplitWSAux [] rest
      else acc.reverse :: pySplitWSAux [] rest
    else
      pySplitWSAux (c :: acc) rest

/-- Python `str.split()` with no argument. -/
def pySplitWS (s : List Char) : List (List Char) :=
  pySplitWSAux [] s

/-- `' '.join(words)`. -/
def joinSpace : List (List Char) → List Char
  | [] => []
  | [w] => w
  | w :: ws => w ++ ' ' :: joinSpace ws

/-- Python `s.split(',')`: split at every comma, keeping empty parts. -/
def splitComma : List Char → List (List Char)
  | [] => [[]]
  | c :: rest =>
    if c = ',' then [] :: splitComma rest
    else
      match splitComma rest with
      | [] => [[c]]
      | t :: ts => (c :: t) :: ts

/-- Does the token contain two consecutive characters that uppercase to `X`
(the test `'XX' in word.upper()` of `clean_name_part`)? -/
def hasXX : List Char → Bool
  | a :: b :: rest => (upperC a = 'X' && upperC b = 'X') || hasXX (b :: rest)
  | _ => false

/-- `clean_name_part` (`CSV_Email_Prep.py` lines 25-56): drop whitespace-separated
tokens containing consecutive `XX` (case-insensitive) or a digit, rejoin with
single spaces. -/
def clean_name_part (s : List Char) : List Char :=
  joinSpace ((pySplitWS s).filter (fun w => !hasXX w && !(w.any isDigitC)))

/-- Index of the last occurrence of the two-character substring `", "`
(Python `name.rfind(', ')`, `none` for not found). -/
def rfindCommaSpace : List Char → Option Nat
  | [] => none
  | [_] => none
  | c :: d :: rest =>
    if c = ',' && d = ' ' then
      match rfindCommaSpace (d :: rest) with
      | some k => some (k + 1)
      | none => some 0
    else
      match rfindCommaSpace (d :: rest) with
      | some k => some (k + 1)
      | none => none

/-- One attempt of the regex `(\w+)\s*\((\w+)\)` anchored at the start of `cs`:
returns `(formal, nickname, rest-after-closing-paren)` on success.  Because
`\s*` and `\(` cannot consume word characters, only the maximal runs can
match, so the backtracking search is deterministic here. -/
def nickMatchAt (cs : List Char) : Option (List Char × List Char × List Char) :=
  let w := cs.takeWhile isWordC
  if w.isEmpty then none
  else
    let r1 := cs.drop w.length
    let r2 := r1.drop (r1.takeWhile isPySpace).length
    match r2 with
    | '(' :: r3 =>
      let n := r3.takeWhile isWordC
      if n.isEmpty then none
      else
        match r3.drop n.length with
        | ')' :: rest => some (w, n, rest)
        | _ => none
    | _ => none

/-- `re.search(r'(\w+)\s*\((\w+)\)', cs)`: leftmost match; returns the text
before the match together with the groups and the text after the closing
parenthesis. -/
def nickSearch : List Char → Option (List Char × List Char × List Char × List Char)
  | [] => none
  | c :: cs =>
    match nickMatchAt (c :: cs) with
    | some (w, n, rest) => some ([], w, n, rest)
    | none =>
      match nickSearch cs with
      | some (pre, w, n, rest) => some (c :: pre, w, n, rest)
      | none => none

/-- Rebuild the first-name string from a nickname match: the nickname followed
by the stripped remainder when non-empty (`f"{nickname} {remainder}"`). -/
def nickCombine (nick rest : List Char) : List Char :=
  let rem := pyStrip rest
  if rem.isEmpty then nick else nick ++ ' ' :: rem

/-- The transformation `split_name` applies to the first-name candidate:
replace a leftmost nickname match by the nickname plus remainder, otherwise
leave the candidate unchanged. -/
def nickProcess (fn : List Char) : List Char :=
  match nickSearch fn with
  | some (_, _, n, rest) => nickCombine n rest
  | none => fn

/-- `split_name` (`CSV_Email_Prep.py` lines 58-135) on `List Char` strings:
returns `(last_name, first_name)`. -/
def split_nameL (name : List Char) : List Char × List Char :=
  if name.isEmpty then ([], [])
  else
    match rfindCommaSpace name with
    | some idx =>
      let lastName := pyStrip (name.take idx)
      let firstName := nickProcess (pyStrip (name.drop (idx + 2)))
      (pyTitle (clean_name_part lastName), pyTitle (clean_name_part firstName))
    | none =>
      match nickSearch name with
      | some (pre, _, n, rest) =>
        let lastName := pyStrip pre
        let firstName := nickCombine n rest
        (pyTitle (clean_name_part lastName), pyTitle (clean_name_part firstName))
      | none => (pyTitle (clean_name_part (pyStrip name)), [])

/-- Does the tail of the email regex after `@` match `cs` entirely, i.e. is
there a split `cs = d ++ '.' :: t` with `d` a non-empty run of domain
characters and `t` at least two letters (backtracking semantics of
`[a-zA-Z0-9.-]+\.[a-zA-Z]{2,}` against the end anchor)? -/
def emailTailOk (cs : List Char) : Bool :=
  (List.range cs.length).any fun i =>
    decide (0 < i) && (cs.take i).all isDomC && decide ((cs.drop i).head? = some '.') &&
      (cs.drop (i + 1)).all isAlphaC && decide (2 ≤ (cs.drop (i + 1)).length)

/-- The email pattern matched against the whole string (no trailing-newline
allowance): a non-empty maximal run of local characters (backtracking cannot
stop the `+` early, since `@` is not a local character), then `@`, then a
matching tail. -/
def emailCore (cs : List Char) : Bool :=
  !(cs.takeWhile isLocalC).isEmpty &&
    decide ((cs.drop (cs.takeWhile isLocalC).length).head? = some '@') &&
    emailTailOk (cs.drop ((cs.takeWhile isLocalC).length + 1))

/-- `is_valid_email` (`CSV_Email_Prep.py` lines 137-149).  Python's `re.match`
with a `$` anchor also matches just before a single trailing newline, so a
string ending in `'\n'` is tested with that newline removed. -/
def is_valid_emailL (cs : List Char) : Bool :=
  if cs.getLast? = some '\n' then emailCore cs.dropLast else emailCore cs

/-- Separator class of `re.sub(r'[;,\s/]+', ',', s)`. -/
def isSepC (c : Char) : Bool :=
  c = ';' || c = ',' || c = '/' || isPySpace c

/-- `re.sub(r'[;,\s/]+', ',', s)`: collapse every run of separators to a single
comma (`prevSep` records whether the previous character was a separator). -/
def normSepAux : Bool → List Char → List Char
  | _, [] => []
  | prevSep, c :: rest =>
    if isSepC c then
      if prevSep then normSepAux true rest
      else ',' :: normSepAux true rest
    else
      c :: normSepAux false rest

/-- Separator normalisation of `split_emails`. -/
def normSep (s : List Char) : List Char :=
  normSepAux false s

/-- The classification loop of `split_emails`: collect valid parts in order and
flag any invalid part. -/
def classifyEmails : List (List Char) → List (List Char) × Bool
  | [] => ([], false)
  | p :: ps =>
    if is_valid_emailL p then (p :: (classifyEmails ps).1, (classifyEmails ps).2)
    else ((classifyEmails ps).1, true)

/-- `split_emails` (`CSV_Email_Prep.py` lines 151-183) on `List Char` strings. -/
def split_emailsL (s : List Char) : List (List Char) × Bool :=
  if s.isEmpty then ([], false)
  else
    classifyEmails (((splitComma (normSep s)).map pyStrip).filter (fun p => !p.isEmpty))

/-- String-level wrapper for `is_valid_email`. -/
def is_valid_email (s : String) : Bool :=
  is_valid_emailL s.data

/-- String-level wrapper for `split_emails`. -/
def split_emails (s : String) : List String × Bool :=
  ((split_emailsL s.data).1.map (fun p => String.mk p), (split_emailsL s.data).2)

/-- String-level wrapper for `split_name`. -/
def split_name (s : String) : String × String :=
  (String.mk (split_nameL s.data).1, String.mk (split_nameL s.data).2)

/-- String-level wrapper for `str.lower()`. -/
def pyLowerS (s : String) : String :=
  String.mk (pyLower s.data)

/-- String-level wrapper for `str.strip()`. -/
def pyStripS (s : String) : String :=
  String.mk (pyStrip s.data)

/-- String-level substring test (Python `needle in hay`). -/
def subS (n hay : String) : Bool :=
  subL n.data hay.data

/-- String-level occurrence count. -/
def occS (n hay : String) : Nat :=
  occL n.data hay.data

/-! ### Records and dictionaries

A CSV row (`csv.DictReader` row) is an insertion-ordered association list from
field name to value; the merged customer table is an insertion-ordered
association list from email key to row.  `aset` mirrors Python dict
assignment: replace in place when the key exists, append otherwise. -/

/-- One CSV row: mapping from field name to string value. -/
abbrev Rec := List (String × String)

/-- Dictionary lookup (`d[k]` / `k in d`): value at the first matching key. -/
def aget {α : Type} : List (String × α) → String → Option α
  | [], _ => none
  | (k', v) :: rest, k => if k' = k then some v else aget rest k

/-- Dictionary lookup with default (`d.get(k, v)`). -/
def agetD {α : Type} (l : List (String × α)) (k : String) (v : α) : α :=
  (aget l k).getD v

/-- Dictionary assignment `d[k] = v`: replace the value in place when the key
is present, append the pair otherwise. -/
def aset {α : Type} : List (String × α) → String → α → List (String × α)
  | [], k, v => [(k, v)]
  | (k', v') :: rest, k, v =>
    if k' = k then (k, v) :: rest else (k', v') :: aset rest k v

/-! ### RecordMerger (`merge_and_clean_csv`, `CSV_Email_Prep.py` lines 185-412)

File I/O is out of scope: the merger is modelled as pure functions from the
already-parsed tables (lists of `Rec`) to the in-memory merged state. -/

/-- Working state of the merger: the email-keyed map, the ordered no-email
rows from the authoritative table, and the consolidated no-email accumulator
for the incoming table. -/
structure MState where
  merged : List (String × Rec)
  noEmail : List Rec
  noCons : Option Rec

/-- One row of the authoritative load (lines 208-217): a row with a non-empty
`EMAIL` is keyed by the lower-cased address when it validates, otherwise
retained as a no-email row with the sentinel; rows without an email are
dropped. -/
def loadStep (st : List (String × Rec) × List Rec) (row : Rec) :
    List (String × Rec) × List Rec :=
  match aget row "EMAIL" with
  | some e =>
    if e ≠ "" then
      if is_valid_email (pyLowerS e) then (aset st.1 (pyLowerS e) row, st.2)
      else (st.1, st.2 ++ [aset row "EMAIL" "NO EMAIL"])
    else st
  | none => st

/-- Loading the authoritative table (lines 205-217). -/
def loadExisting (rows : List Rec) : List (String × Rec) × List Rec :=
  rows.foldl loadStep ([], [])

/-- The no-email routing decision of the authoritative load, per row: `some`
of the sentinel-marked row exactly when the row has a non-empty email whose
lower-cased form fails validation. -/
def routeNoEmail (row : Rec) : Option Rec :=
  match aget row "EMAIL" with
  | some e =>
    if e ≠ "" then
      if is_valid_email (pyLowerS e) then none
      else some (aset row "EMAIL" "NO EMAIL")
    else none
  | none => none

/-- The name backfill applied to one authoritative row (lines 228-235): when
`NAME` is non-empty and `FIRST_NAME` or `LAST_NAME` is missing or empty, both
are assigned from `split_name`. -/
def backfillRow (r : Rec) : Rec :=
  if agetD r "NAME" "" ≠ "" ∧
      (agetD r "FIRST_NAME" "" = "" ∨ agetD r "LAST_NAME" "" = "") then
    aset (aset r "LAST_NAME" (split_name (agetD r "NAME" "")).1)
      "FIRST_NAME" (split_name (agetD r "NAME" "")).2
  else r

/-- The backfill pass over the whole merged map (lines 227-235). -/
def backfill (m : List (String × Rec)) : List (String × Rec) :=
  m.map (fun p => (p.1, backfillRow p.2))

/-- Append a tag to a row's `Notes`, semicolon-joined when a non-empty `Notes`
value exists (the `if 'Notes' in row and row['Notes']` idiom). -/
def addNote (r : Rec) (t : String) : Rec :=
  match aget r "Notes" with
  | some n => if n ≠ "" then aset r "Notes" (n ++ "; " ++ t) else aset r "Notes" t
  | none => aset r "Notes" t

/-- The provenance note `f"Customer Name: '{name}' and Company Name: '{company}'"`
(line 295). -/
def provNote (nm comp : String) : String :=
  "Customer Name: '" ++ nm ++ "' and Company Name: '" ++ comp ++ "'"

/-- Notes value built when the stored row had no (or an empty) Notes value
(lines 308-317): the provenance note, then the tags copied from the incoming
row by substring test. -/
def freshNotes (curNotes prov : String) : String :=
  let n2 := if subS "DUPLICATE" curNotes then prov ++ "; DUPLICATE" else prov
  if subS "INVALID EMAIL PARTS" curNotes then n2 ++ "; INVALID EMAIL PARTS" else n2

/-- The Notes update of the existing-key branch (lines 294-317): semicolon-join
the provenance note onto a non-empty stored Notes value and propagate the
tags guarded by substring presence checks, or install `freshNotes`. -/
def updateNotes (rec : Rec) (curNotes prov : String) : Rec :=
  match aget rec "Notes" with
  | some n =>
    if n ≠ "" then
      let n1 := n ++ "; " ++ prov
      let n2 := if subS "DUPLICATE" curNotes && !subS "DUPLICATE" n1 then
          n1 ++ "; DUPLICATE" else n1
      let n3 := if subS "INVALID EMAIL PARTS" curNotes && !subS "INVALID EMAIL PARTS" n2 then
          n2 ++ "; INVALID EMAIL PARTS" else n2
      aset rec "Notes" n3
    else aset rec "Notes" (freshNotes curNotes prov)
  | none => aset rec "Notes" (freshNotes curNotes prov)

/-- The display-name update of the existing-key branch (lines 319-327): only
when the stored `NAME` is missing or empty, install the incoming name, and
when the first or last name is then missing, assign both from `split_name`. -/
def updateName (rec : Rec) (nm : String) : Rec :=
  if agetD rec "NAME" "" ≠ "" then rec
  else
    if agetD (aset rec "NAME" nm) "FIRST_NAME" "" = "" ∨
        agetD (aset rec "NAME" nm) "LAST_NAME" "" = "" then
      aset (aset (aset rec "NAME" nm) "LAST_NAME" (split_name nm).1)
        "FIRST_NAME" (split_name nm).2
    else aset rec "NAME" nm

/-- Update of an existing merged row on an email-key match (lines 293-327):
the Notes update followed by the display-name update. -/
def updateExisting (rec : Rec) (curNotes nm comp : String) : Rec :=
  updateName (updateNotes rec curNotes (provNote nm comp)) nm

/-- Synthesis of a fresh output row for a new email key (lines 328-357):
every output-schema field empty, then email, company and display name from the
incoming row, split name fields when the display name is non-empty, and the
inherited tags in `Notes`. -/
def newCustomer (fieldnames : List String) (cur : Rec) (em : String)
    (numValid : Nat) (hasInv : Bool) : Rec :=
  let r0 : Rec := fieldnames.map (fun f => (f, ""))
  let r1 := aset r0 "EMAIL" em
  let r2 := aset r1 "COMPANY_NAME" (agetD cur "COMPANY_NAME" "")
  let r3 := aset r2 "NAME" (agetD cur "NAME" "")
  let r4 :=
    if agetD cur "NAME" "" ≠ "" then
      aset (aset r3 "LAST_NAME" (split_name (agetD cur "NAME" "")).1)
        "FIRST_NAME" (split_name (agetD cur "NAME" "")).2
    else r3
  let r5 :=
    match aget cur "Notes" with
    | some n =>
      if n ≠ "" then aset r4 "Notes" n
      else if numValid > 1 then aset r4 "Notes" "DUPLICATE" else r4
    | none => if numValid > 1 then aset r4 "Notes" "DUPLICATE" else r4
  if hasInv then
    match aget r5 "Notes" with
    | some n =>
      if n ≠ "" then aset r5 "Notes" (n ++ "; INVALID EMAIL PARTS")
      else aset r5 "Notes" "INVALID EMAIL PARTS"
    | none => aset r5 "Notes" "INVALID EMAIL PARTS"
  else r5

/-- The tagged copy of the incoming row built for one valid address
(lines 276-291): `EMAIL` set to the lowered address, then `DUPLICATE` when the
row fanned out and `INVALID EMAIL PARTS` when some part failed validation. -/
def curRow (row : Rec) (em : String) (numValid : Nat) (hasInv : Bool) : Rec :=
  let cur0 := aset row "EMAIL" em
  let cur1 := if numValid > 1 then addNote cur0 "DUPLICATE" else cur0
  if hasInv then addNote cur1 "INVALID EMAIL PARTS" else cur1

/-- The per-valid-address body of the incoming loop (lines 272-357): build the
tagged copy of the incoming row and either update the existing keyed row or
insert a fresh one. -/
def procEmail (fieldnames : List String) (m : List (String × Rec)) (row : Rec)
    (e : String) (numValid : Nat) (hasInv : Bool) : List (String × Rec) :=
  let em := pyLowerS e
  let cur2 := curRow row em numValid hasInv
  match aget m em with
  | some rec =>
    aset m em (updateExisting rec (agetD cur2 "Notes" "") (agetD cur2 "NAME" "")
      (agetD cur2 "COMPANY_NAME" ""))
  | none => aset m em (newCustomer fieldnames cur2 em numValid hasInv)

/-- Folding one missing-email or all-invalid incoming row into the
consolidated accumulator (lines 246-269): only the first such row seeds the
accumulator, later ones are dropped. -/
def noEmailCase (st : MState) (row : Rec) (tag : String) : MState :=
  match st.noCons with
  | some _ => st
  | none =>
    let r := aset row "EMAIL" "NO EMAIL"
    let r :=
      match aget r "Notes" with
      | some n => aset r "Notes" (n ++ "; " ++ tag)
      | none => aset r "Notes" tag
    { st with noCons := some r }

/-- Processing one row of the incoming table (lines 244-357). -/
def procNewRow (fieldnames : List String) (st : MState) (row : Rec) : MState :=
  match aget row "EMAIL" with
  | none => noEmailCase st row "MISSING EMAIL"
  | some e =>
    if e = "" then noEmailCase st row "MISSING EMAIL"
    else
      if (split_emails e).1.isEmpty then noEmailCase st row "INVALID EMAIL"
      else
        { st with
          merged := (split_emails e).1.foldl
            (fun m e1 => procEmail fieldnames m row e1 (split_emails e).1.length
              (split_emails e).2) st.merged }

/-- The whole merge before the status annotator (lines 200-357): load and
backfill the authoritative table, then fold in the incoming table. -/
def mergeAll (fieldnames : List String) (existingRows newRows : List Rec) : MState :=
  newRows.foldl (procNewRow fieldnames)
    ⟨backfill (loadExisting existingRows).1, (loadExisting existingRows).2, none⟩

/-! ### StatusAnnotator (lines 383-412) -/

/-- Locate the first header containing the substring `"email"`
(case-insensitive). -/
def findEmailField (fields : List String) : Option String :=
  fields.find? (fun f => subS "email" (pyLowerS f))

/-- One step of collecting the auxiliary set (lines 398-402): lower-case and
strip the row's email value and add it when it validates (set semantics:
membership-checked insertion). -/
def addBounced (ef : String) (s : List String) (row : Rec) : List String :=
  match aget row ef with
  | some v =>
    if v ≠ "" then
      if is_valid_email (pyLowerS (pyStripS v)) then
        (if pyLowerS (pyStripS v) ∈ s then s else s ++ [pyLowerS (pyStripS v)])
      else s
    else s
  | none => s

/-- Build the set of lower-cased, stripped, validated addresses from an
auxiliary table (lines 391-402); `[]` when no email column is found. -/
def buildEmailSet (fields : List String) (rows : List Rec) : List String :=
  match findEmailField fields with
  | none => []
  | some ef => rows.foldl (addBounced ef) []

/-- One annotation pass (lines 404-410): append the tag to the `Notes` of
every merged row whose key is in the set. -/
def annotate (m : List (String × Rec)) (bset : List String) (tag : String) :
    List (String × Rec) :=
  m.map (fun p => if p.1 ∈ bset then (p.1, addNote p.2 tag) else p)

/-! ### Character-level lemmas -/

theorem charToNat_ofNat {n : Nat} (h : n < 55296) : (Char.ofNat n).toNat = n := by
  rw [Char.ofNat, dif_pos (Or.inl (by omega : n < 55296))]
  simp [Char.ofNatAux, Char.toNat, UInt32.toNat, BitVec.toNat_ofNatLt]

theorem lowerC_toNat (c : Char) :
    (lowerC c).toNat = if 65 ≤ c.toNat ∧ c.toNat ≤ 90 then c.toNat + 32 else c.toNat := by
  unfold lowerC
  split
  · exact charToNat_ofNat (by omega)
  · rfl

theorem isAlphaC_lowerC (c : Char) : isAlphaC (lowerC c) = isAlphaC c := by
  simp only [isAlphaC, decide_eq_decide]
  rw [lowerC_toNat]
  split <;> omega

theorem isLocalC_lowerC (c : Char) : isLocalC (lowerC c) = isLocalC c := by
  simp only [isLocalC, isAlphaC, isDigitC, ← Bool.decide_or]
  rw [lowerC_toNat, decide_eq_decide]
  split <;> omega

theorem isDomC_lowerC (c : Char) : isDomC (lowerC c) = isDomC c := by
  simp only [isDomC, isAlphaC, isDigitC, ← Bool.decide_or]
  rw [lowerC_toNat, decide_eq_decide]
  split <;> omega

theorem lowerC_eq_low {c d : Char} (hd : d.toNat < 65) : lowerC c = d ↔ c = d := by
  unfold lowerC
  split
  · rename_i h
    constructor
    · intro he
      have h2 := congrArg Char.toNat he
      rw [charToNat_ofNat (by omega)] at h2
      omega
    · intro he
      subst he
      omega
  · exact Iff.rfl

theorem lowerC_lowerC (c : Char) : lowerC (lowerC c) = lowerC c := by
  simp only [lowerC]
  by_cases h : 65 ≤ c.toNat ∧ c.toNat ≤ 90
  · rw [if_pos h, if_neg (by rw [charToNat_ofNat (by omega)]; omega)]
  · rw [if_neg h, if_neg h]

theorem pyLower_isEmpty (l : List Char) : (pyLower l).isEmpty = l.isEmpty := by
  cases l <;> rfl

theorem pyLower_length (l : List Char) : (pyLower l).length = l.length := by
  simp [pyLower]

theorem pyLower_pyLower (l : List Char) : pyLower (pyLower l) = pyLower l := by
  simp only [pyLower, List.map_map]
  rw [show lowerC ∘ lowerC = lowerC from funext lowerC_lowerC]

theorem all_pyLower {p : Char → Bool} (hp : ∀ c, p (lowerC c) = p c) (l : List Char) :
    (pyLower l).all p = l.all p := by
  rw [pyLower, List.all_map, show p ∘ lowerC = p from funext hp]

theorem head?_pyLower_eq {l : List Char} {d : Char} (hd : d.toNat < 65) :
    ((pyLower l).head? = some d) ↔ (l.head? = some d) := by
  rw [pyLower, List.head?_map]
  cases l.head? with
  | none => simp
  | some c => simpa using lowerC_eq_low hd

theorem emailTailOk_lower (r : List Char) : emailTailOk (pyLower r) = emailTailOk r := by
  unfold emailTailOk
  rw [pyLower_length]
  congr 1
  funext i
  have hdrop : ∀ j, (pyLower r).drop j = pyLower (r.drop j) := by
    intro j
    simp [pyLower, List.map_drop]
  have htake : (pyLower r).take i = pyLower (r.take i) := by
    simp [pyLower, List.map_take]
  rw [htake, hdrop i, hdrop (i + 1), all_pyLower isDomC_lowerC, all_pyLower isAlphaC_lowerC,
    pyLower_length, decide_eq_decide.mpr (head?_pyLower_eq (by decide))]

theorem emailCore_lower (cs : List Char) : emailCore (pyLower cs) = emailCore cs := by
  unfold emailCore
  have ht : (pyLower cs).takeWhile isLocalC = pyLower (cs.takeWhile isLocalC) := by
    rw [pyLower, List.takeWhile_map, show isLocalC ∘ lowerC = isLocalC from funext isLocalC_lowerC]
    rfl
  have hdrop : ∀ j, (pyLower cs).drop j = pyLower (cs.drop j) := by
    intro j
    simp [pyLower, List.map_drop]
  rw [ht, pyLower_isEmpty, pyLower_length, hdrop, hdrop,
    decide_eq_decide.mpr (head?_pyLower_eq (by decide)), emailTailOk_lower]

theorem is_valid_emailL_lower (cs : List Char) :
    is_valid_emailL (pyLower cs) = is_valid_emailL cs := by
  unfold is_valid_emailL
  have hg : ((pyLower cs).getLast? = some '\n') ↔ (cs.getLast? = some '\n') := by
    rw [pyLower, List.getLast?_map]
    cases cs.getLast? with
    | none => simp
    | some c => simpa using lowerC_eq_low (by decide)
  by_cases h : cs.getLast? = some '\n'
  · rw [if_pos (hg.mpr h), if_pos h,
      show (pyLower cs).dropLast = pyLower cs.dropLast from by simp [pyLower, List.map_dropLast],
      emailCore_lower]
  · rw [if_neg (fun hc => h (hg.mp hc)), if_neg h, emailCore_lower]

theorem is_valid_email_lower (s : String) : is_valid_email (pyLowerS s) = is_valid_email s :=
  is_valid_emailL_lower s.data

theorem pyLowerS_idem (s : String) : pyLowerS (pyLowerS s) = pyLowerS s :=
  congrArg String.mk (pyLower_pyLower s.data)

/-! ### Dictionary lemmas -/

theorem aget_aset_self {α : Type} (l : List (String × α)) (k : String) (v : α) :
    aget (aset l k v) k = some v := by
  induction l with
  | nil => simp [aset, aget]
  | cons p rest ih =>
    obtain ⟨k', v'⟩ := p
    by_cases h : k' = k
    · simp [aset, h, aget]
    · simp [aset, h, aget, ih]

theorem aget_aset_ne {α : Type} (l : List (String × α)) {k k' : String} (v : α)
    (h : k' ≠ k) : aget (aset l k v) k' = aget l k' := by
  induction l with
  | nil => simp [aset, aget, Ne.symm h]
  | cons p rest ih =>
    obtain ⟨k1, v1⟩ := p
    by_cases h1 : k1 = k
    · subst h1
      simp [aset, aget, Ne.symm h]
    · simp only [aset, if_neg h1, aget]
      by_cases h2 : k1 = k'
      · simp [h2]
      · simp [h2, ih]

theorem keys_aset {α : Type} {l : List (String × α)} {k : String} {w : α}
    (h : aget l k = some w) (v : α) :
    (aset l k v).map Prod.fst = l.map Prod.fst := by
  induction l with
  | nil => simp [aget] at h
  | cons p rest ih =>
    obtain ⟨k1, v1⟩ := p
    by_cases h1 : k1 = k
    · simp [aset, h1]
    · simp only [aget, if_neg h1] at h
      simp [aset, h1, ih h]

/-! ### Substring lemmas -/

theorem subL_nil_left (l : List Char) : subL [] l = true := by
  cases l <;> simp [subL, List.isPrefixOf]

theorem subL_append_left {n a : List Char} (b : List Char) (h : subL n a = true) :
    subL n (a ++ b) = true := by
  induction a with
  | nil =>
    simp only [subL, List.isEmpty_iff] at h
    subst h
    exact subL_nil_left b
  | cons c a' ih =>
    simp only [subL, Bool.or_eq_true] at h ⊢
    rcases h with h | h
    · left
      rw [List.isPrefixOf_iff_prefix] at h ⊢
      exact h.trans (List.prefix_append (c :: a') b)
    · right
      exact ih h

theorem subS_append_left {n a : String} (b : String) (h : subS n a = true) :
    subS n (a ++ b) = true := by
  rw [subS, String.data_append]
  exact subL_append_left b.data h

theorem subS_empty {n : String} (h : n ≠ "") : subS n "" = false := by
  rw [subS]
  show subL n.data [] = false
  cases hd : n.data with
  | nil =>
    exfalso
    apply h
    cases n
    simp only at hd
    rw [hd]
  | cons c cs => simp [subL]

/-! ### Notes-append lemmas -/

theorem addNote_notes (r : Rec) (t : String) :
    aget (addNote r t) "Notes" =
      some (if agetD r "Notes" "" = "" then t else agetD r "Notes" "" ++ "; " ++ t) := by
  unfold addNote agetD
  cases h : aget r "Notes" with
  | none => simp [h, aget_aset_self]
  | some n =>
    by_cases hn : n = ""
    · simp [h, hn, aget_aset_self]
    · simp [h, hn, aget_aset_self]

theorem addNote_frame (r : Rec) (t : String) {k : String} (h : k ≠ "Notes") :
    aget (addNote r t) k = aget r k := by
  unfold addNote
  cases aget r "Notes" with
  | none => exact aget_aset_ne r t h
  | some n =>
    by_cases hn : n = "" <;> simp [hn, aget_aset_ne, h]

/-! ### Claim C1: the authoritative-row name backfill -/

/-- Counterexample to C1: a row whose `LAST_NAME` is already `"Jones"` but
whose `FIRST_NAME` is empty has its `LAST_NAME` overwritten with the parse of
the display name (`"Smith"`), so the backfill does not leave the already
present field unchanged. -/
theorem claim_C1_cex :
    aget (backfillRow [("EMAIL", "a@b.co"), ("NAME", "Smith, John"),
      ("FIRST_NAME", ""), ("LAST_NAME", "Jones")]) "LAST_NAME" = some "Smith" ∧
    aget [("EMAIL", "a@b.co"), ("NAME", "Smith, John"),
      ("FIRST_NAME", ""), ("LAST_NAME", "Jones")] "LAST_NAME" = some "Jones" ∧
    ("Smith" : String) ≠ "Jones" := by
  decide

/-- C1 (amended): for every authoritative row with a non-empty display name
and a missing/empty first- or last-name field, the backfill assigns BOTH name
fields from `split_name` (overwriting a value the other field already had),
leaving every other field unchanged; rows with both name fields present, or
with no display name, are left untouched. -/
theorem claim_C1 :
    (∀ r : Rec, agetD r "NAME" "" ≠ "" →
      (agetD r "FIRST_NAME" "" = "" ∨ agetD r "LAST_NAME" "" = "") →
      aget (backfillRow r) "FIRST_NAME" = some (split_name (agetD r "NAME" "")).2 ∧
      aget (backfillRow r) "LAST_NAME" = some (split_name (agetD r "NAME" "")).1 ∧
      ∀ k, k ≠ "FIRST_NAME" → k ≠ "LAST_NAME" → aget (backfillRow r) k = aget r k) ∧
    (∀ r : Rec,
      (agetD r "NAME" "" = "" ∨ (agetD r "FIRST_NAME" "" ≠ "" ∧ agetD r "LAST_NAME" "" ≠ "")) →
      backfillRow r = r) := by
  constructor
  · intro r h1 h2
    unfold backfillRow
    rw [if_pos ⟨h1, h2⟩]
    refine ⟨aget_aset_self _ _ _, ?_, ?_⟩
    · rw [aget_aset_ne _ _ (by decide : ("LAST_NAME" : String) ≠ "FIRST_NAME")]
      exact aget_aset_self _ _ _
    · intro k hk1 hk2
      rw [aget_aset_ne _ _ hk1, aget_aset_ne _ _ hk2]
  · intro r h
    unfold backfillRow
    rw [if_neg]
    rintro ⟨hna, hor⟩
    rcases h with h | ⟨hf, hl⟩
    · exact hna h
    · rcases hor with h2 | h2
      · exact hf h2
      · exact hl h2

/-- Witness for C1 at a concrete row missing both structured name fields. -/
theorem claim_C1_witness :
    aget (backfillRow [("NAME", "Doe, Jane"), ("FIRST_NAME", ""), ("LAST_NAME", "")])
      "FIRST_NAME" = some "Jane" := by
  have h := claim_C1.1 [("NAME", "Doe, Jane"), ("FIRST_NAME", ""), ("LAST_NAME", "")]
    (by decide) (Or.inl (by decide))
  rw [h.1]
  decide

/-! ### Claim C3: the fresh-row synthesis doubles the INVALID EMAIL PARTS tag -/

/-- C3 failing input: an incoming row whose email field splits into one valid
address and one invalid part.  The code first appends `INVALID EMAIL PARTS` to
the copied row's Notes (lines 287-291), copies those Notes into the fresh row
(lines 344-345), and then appends the same tag again (lines 350-354), so the
fresh row's Notes carry the tag twice, where the claim (and the
duplicate-guarded update branch at lines 302-317) say it appears at most
once. -/
theorem claim_C3 :
    aget ((procNewRow ["EMAIL", "FIRST_NAME", "LAST_NAME", "NAME", "COMPANY_NAME", "Notes"]
        ⟨[], [], none⟩
        [("EMAIL", "x@y.com; bad"), ("NAME", "Ann, Bob"), ("COMPANY_NAME", "ACME")]).merged)
      "x@y.com" = some [("EMAIL", "x@y.com"), ("FIRST_NAME", "Bob"), ("LAST_NAME", "Ann"),
        ("NAME", "Ann, Bob"), ("COMPANY_NAME", "ACME"),
        ("Notes", "INVALID EMAIL PARTS; INVALID EMAIL PARTS")] ∧
    occS "INVALID EMAIL PARTS" "INVALID EMAIL PARTS; INVALID EMAIL PARTS" = 2 := by
  decide

/-! ### Frame lemmas for the existing-key update -/

theorem updateNotes_frame (rec : Rec) (c p : String) {k : String} (h : k ≠ "Notes") :
    aget (updateNotes rec c p) k = aget rec k := by
  unfold updateNotes
  cases hn : aget rec "Notes" with
  | none => exact aget_aset_ne _ _ h
  | some n =>
    dsimp only
    split
    · exact aget_aset_ne _ _ h
    · exact aget_aset_ne _ _ h

theorem updateName_frame (rec : Rec) (nm : String) {k : String}
    (h1 : k ≠ "NAME") (h2 : k ≠ "FIRST_NAME") (h3 : k ≠ "LAST_NAME") :
    aget (updateName rec nm) k = aget rec k := by
  unfold updateName
  split
  · rfl
  · split
    · rw [aget_aset_ne _ _ h2, aget_aset_ne _ _ h3, aget_aset_ne _ _ h1]
    · exact aget_aset_ne _ _ h1

/-! ### Claim C9: fields other than Notes and the name fields are untouched
on a key match -/

/-- C9: when an incoming valid address matches an existing key, the
existing-key update leaves every stored field other than `Notes`, `NAME`,
`FIRST_NAME` and `LAST_NAME` unchanged (in particular `COMPANY_NAME` is never
overwritten), both at the level of the row update and through the merge step
on the keyed map. -/
theorem claim_C9 :
    (∀ (rec : Rec) (curNotes nm comp : String) (k : String),
      k ≠ "Notes" → k ≠ "NAME" → k ≠ "FIRST_NAME" → k ≠ "LAST_NAME" →
      aget (updateExisting rec curNotes nm comp) k = aget rec k) ∧
    (∀ (fieldnames : List String) (m : List (String × Rec)) (row : Rec) (e : String)
       (nv : Nat) (inv : Bool) (rec : Rec) (k : String),
      aget m (pyLowerS e) = some rec →
      k ≠ "Notes" → k ≠ "NAME" → k ≠ "FIRST_NAME" → k ≠ "LAST_NAME" →
      ∃ r2, aget (procEmail fieldnames m row e nv inv) (pyLowerS e) = some r2 ∧
        aget r2 k = aget rec k) := by
  constructor
  · intro rec c nm comp k h0 h1 h2 h3
    unfold updateExisting
    rw [updateName_frame _ _ h1 h2 h3, updateNotes_frame _ _ _ h0]
  · intro F m row e nv inv rec k hm h0 h1 h2 h3
    refine ⟨updateExisting rec (agetD (curRow row (pyLowerS e) nv inv) "Notes" "")
      (agetD (curRow row (pyLowerS e) nv inv) "NAME" "")
      (agetD (curRow row (pyLowerS e) nv inv) "COMPANY_NAME" ""), ?_, ?_⟩
    · simp only [procEmail, hm]
      exact aget_aset_self _ _ _
    · unfold updateExisting
      rw [updateName_frame _ _ h1 h2 h3, updateNotes_frame _ _ _ h0]

/-- Witness for C9: a concrete key match where the stored company survives. -/
theorem claim_C9_witness :
    aget (updateExisting [("EMAIL", "a@b.co"), ("COMPANY_NAME", "OC")] "" "N" "C")
      "COMPANY_NAME" = some "OC" := by
  rw [claim_C9.1 [("EMAIL", "a@b.co"), ("COMPANY_NAME", "OC")] "" "N" "C" "COMPANY_NAME"
    (by decide) (by decide) (by decide) (by decide)]
  decide

/-! ### Claim C4: the existing-key merge branch -/

theorem ne_empty_of_subS {n s : String} (hn : n ≠ "") (h : subS n s = true) : s ≠ "" := by
  intro he
  rw [he, subS_empty hn] at h
  exact Bool.false_ne_true h

theorem updateExisting_notes (rec : Rec) (c nm comp : String) :
    aget (updateExisting rec c nm comp) "Notes" =
      aget (updateNotes rec c (provNote nm comp)) "Notes" := by
  unfold updateExisting
  exact updateName_frame _ _ (by decide) (by decide) (by decide)

theorem updateNotes_notes_of_ne (rec : Rec) (c p : String) (h : agetD rec "Notes" "" ≠ "") :
    aget (updateNotes rec c p) "Notes" =
      some (
        let n1 := agetD rec "Notes" "" ++ "; " ++ p
        let n2 := if subS "DUPLICATE" c && !subS "DUPLICATE" n1 then n1 ++ "; DUPLICATE" else n1
        if subS "INVALID EMAIL PARTS" c && !subS "INVALID EMAIL PARTS" n2 then
          n2 ++ "; INVALID EMAIL PARTS" else n2) := by
  unfold updateNotes
  cases hn : aget rec "Notes" with
  | none =>
    exfalso
    apply h
    simp [agetD, hn]
  | some n =>
    have hd : agetD rec "Notes" "" = n := by simp [agetD, hn]
    have hne : n ≠ "" := hd ▸ h
    rw [hd]
    dsimp only
    rw [if_pos hne, aget_aset_self]

theorem updateNotes_notes_of_empty (rec : Rec) (c p : String) (h : agetD rec "Notes" "" = "") :
    aget (updateNotes rec c p) "Notes" = some (freshNotes c p) := by
  unfold updateNotes
  cases hn : aget rec "Notes" with
  | none => exact aget_aset_self _ _ _
  | some n =>
    have hne : n = "" := by simpa [agetD, hn] using h
    dsimp only
    rw [if_neg (not_not_intro hne), aget_aset_self]

theorem freshNotes_eq (c p : String) :
    freshNotes c p =
      p ++ ((if subS "DUPLICATE" c then "; DUPLICATE" else "") ++
        (if subS "INVALID EMAIL PARTS" c then "; INVALID EMAIL PARTS" else "")) := by
  unfold freshNotes
  by_cases hd : subS "DUPLICATE" c = true <;>
    by_cases hi : subS "INVALID EMAIL PARTS" c = true <;>
      simp [hd, hi, String.append_assoc, String.append_empty]

/-- C4: on an existing-key match the merge step keeps the key set (no second
row) and replaces the stored row by `updateExisting`; that update appends the
provenance note `Customer Name: '<name>' and Company Name: '<company>'`
semicolon-joined with any existing Notes (followed only by optional tag
suffixes), does not re-append `DUPLICATE` / `INVALID EMAIL PARTS` when the
tag is already a substring of the stored Notes, and overwrites the stored
display name — backfilling the split name fields when one is missing — only
when the stored display name was empty or missing. -/
theorem claim_C4 :
    (∀ (fieldnames : List String) (m : List (String × Rec)) (row : Rec) (e : String)
       (nv : Nat) (inv : Bool) (rec : Rec),
      aget m (pyLowerS e) = some rec →
      (procEmail fieldnames m row e nv inv).map Prod.fst = m.map Prod.fst ∧
      aget (procEmail fieldnames m row e nv inv) (pyLowerS e) =
        some (updateExisting rec (agetD (curRow row (pyLowerS e) nv inv) "Notes" "")
          (agetD (curRow row (pyLowerS e) nv inv) "NAME" "")
          (agetD (curRow row (pyLowerS e) nv inv) "COMPANY_NAME" ""))) ∧
    (∀ (rec : Rec) (c nm comp : String), ∃ t : String,
      aget (updateExisting rec c nm comp) "Notes" =
        some ((if agetD rec "Notes" "" = "" then provNote nm comp
               else agetD rec "Notes" "" ++ "; " ++ provNote nm comp) ++ t)) ∧
    (∀ (rec : Rec) (c nm comp : String),
      subS "DUPLICATE" (agetD rec "Notes" "") = true →
      aget (updateExisting rec c nm comp) "Notes" =
        some (
          let n1 := agetD rec "Notes" "" ++ "; " ++ provNote nm comp
          if subS "INVALID EMAIL PARTS" c && !subS "INVALID EMAIL PARTS" n1 then
            n1 ++ "; INVALID EMAIL PARTS" else n1)) ∧
    (∀ (rec : Rec) (c nm comp : String),
      subS "INVALID EMAIL PARTS" (agetD rec "Notes" "") = true →
      aget (updateExisting rec c nm comp) "Notes" =
        some (
          let n1 := agetD rec "Notes" "" ++ "; " ++ provNote nm comp
          if subS "DUPLICATE" c && !subS "DUPLICATE" n1 then n1 ++ "; DUPLICATE" else n1)) ∧
    (∀ (rec : Rec) (c nm comp : String),
      (agetD rec "NAME" "" ≠ "" →
        aget (updateExisting rec c nm comp) "NAME" = aget rec "NAME" ∧
        aget (updateExisting rec c nm comp) "FIRST_NAME" = aget rec "FIRST_NAME" ∧
        aget (updateExisting rec c nm comp) "LAST_NAME" = aget rec "LAST_NAME") ∧
      (agetD rec "NAME" "" = "" →
        aget (updateExisting rec c nm comp) "NAME" = some nm ∧
        ((agetD rec "FIRST_NAME" "" = "" ∨ agetD rec "LAST_NAME" "" = "") →
          aget (updateExisting rec c nm comp) "FIRST_NAME" = some (split_name nm).2 ∧
          aget (updateExisting rec c nm comp) "LAST_NAME" = some (split_name nm).1) ∧
        ((agetD rec "FIRST_NAME" "" ≠ "" ∧ agetD rec "LAST_NAME" "" ≠ "") →
          aget (updateExisting rec c nm comp) "FIRST_NAME" = aget rec "FIRST_NAME" ∧
          aget (updateExisting rec c nm comp) "LAST_NAME" = aget rec "LAST_NAME"))) := by
  refine ⟨?_, ?_, ?_, ?_, ?_⟩
  · intro F m row e nv inv rec hm
    constructor
    · simp only [procEmail, hm]
      exact keys_aset hm _
    · simp only [procEmail, hm]
      exact aget_aset_self _ _ _
  · intro rec c nm comp
    rw [updateExisting_notes]
    by_cases he : agetD rec "Notes" "" = ""
    · rw [updateNotes_notes_of_empty _ _ _ he, freshNotes_eq]
      exact ⟨_, by rw [if_pos he]⟩
    · rw [updateNotes_notes_of_ne _ _ _ he]
      dsimp only
      rw [if_neg he]
      split
      · split
        · exact ⟨"; DUPLICATE" ++ "; INVALID EMAIL PARTS", by rw [← String.append_assoc]⟩
        · exact ⟨"; DUPLICATE", rfl⟩
      · split
        · exact ⟨"; INVALID EMAIL PARTS", rfl⟩
        · exact ⟨"", by rw [String.append_empty]⟩
  · intro rec c nm comp hsub
    have hne : agetD rec "Notes" "" ≠ "" := ne_empty_of_subS (by decide) hsub
    rw [updateExisting_notes, updateNotes_notes_of_ne _ _ _ hne]
    dsimp only
    have h1 : subS "DUPLICATE" (agetD rec "Notes" "" ++ "; " ++ provNote nm comp) = true :=
      subS_append_left _ (subS_append_left _ hsub)
    rw [h1]
    simp only [Bool.not_true, Bool.and_false, Bool.false_eq_true, if_false]
  · intro rec c nm comp hsub
    have hne : agetD rec "Notes" "" ≠ "" := ne_empty_of_subS (by decide) hsub
    rw [updateExisting_notes, updateNotes_notes_of_ne _ _ _ hne]
    dsimp only
    have h1 : subS "INVALID EMAIL PARTS" (agetD rec "Notes" "" ++ "; " ++ provNote nm comp)
        = true := subS_append_left _ (subS_append_left _ hsub)
    by_cases hd :
        (subS "DUPLICATE" c && !subS "DUPLICATE"
          (agetD rec "Notes" "" ++ "; " ++ provNote nm comp)) = true
    · rw [if_pos hd, subS_append_left _ h1]
      simp only [Bool.not_true, Bool.and_false, Bool.false_eq_true, if_false]
    · rw [if_neg hd, h1]
      simp only [Bool.not_true, Bool.and_false, Bool.false_eq_true, if_false]
  · intro rec c nm comp
    have hfr : ∀ k, k ≠ "Notes" →
        aget (updateNotes rec c (provNote nm comp)) k = aget rec k :=
      fun k h => updateNotes_frame _ _ _ h
    have hNm : agetD (updateNotes rec c (provNote nm comp)) "NAME" "" = agetD rec "NAME" "" := by
      unfold agetD
      rw [hfr _ (by decide)]
    have hF : agetD (updateNotes rec c (provNote nm comp)) "FIRST_NAME" ""
        = agetD rec "FIRST_NAME" "" := by
      unfold agetD
      rw [hfr _ (by decide)]
    have hL : agetD (updateNotes rec c (provNote nm comp)) "LAST_NAME" ""
        = agetD rec "LAST_NAME" "" := by
      unfold agetD
      rw [hfr _ (by decide)]
    constructor
    · intro h
      show aget (updateName (updateNotes rec c (provNote nm comp)) nm) "NAME" = _ ∧
        aget (updateName (updateNotes rec c (provNote nm comp)) nm) "FIRST_NAME" = _ ∧
        aget (updateName (updateNotes rec c (provNote nm comp)) nm) "LAST_NAME" = _
      unfold updateName
      rw [if_pos (hNm ▸ h)]
      exact ⟨hfr _ (by decide), hfr _ (by decide), hfr _ (by decide)⟩
    · intro h
      have h1 : ¬ agetD (updateNotes rec c (provNote nm comp)) "NAME" "" ≠ "" :=
        not_not_intro (hNm ▸ h)
      refine ⟨?_, ?_, ?_⟩
      · show aget (updateName (updateNotes rec c (provNote nm comp)) nm) "NAME" = some nm
        unfold updateName
        rw [if_neg h1]
        split
        · rw [aget_aset_ne _ _ (by decide : ("NAME" : String) ≠ "FIRST_NAME"),
            aget_aset_ne _ _ (by decide : ("NAME" : String) ≠ "LAST_NAME"),
            aget_aset_self]
        · rw [aget_aset_self]
      · intro hor
        have hcond : agetD (aset (updateNotes rec c (provNote nm comp)) "NAME" nm)
              "FIRST_NAME" "" = "" ∨
            agetD (aset (updateNotes rec c (provNote nm comp)) "NAME" nm)
              "LAST_NAME" "" = "" := by
          unfold agetD
          rw [aget_aset_ne _ _ (by decide : ("FIRST_NAME" : String) ≠ "NAME"),
            aget_aset_ne _ _ (by decide : ("LAST_NAME" : String) ≠ "NAME")]
          unfold agetD at hF hL
          rw [hF, hL]
          exact hor
        constructor <;>
          (show aget (updateName (updateNotes rec c (provNote nm comp)) nm) _ = _
           unfold updateName
           rw [if_neg h1, if_pos hcond])
        · exact aget_aset_self _ _ _
        · rw [aget_aset_ne _ _ (by decide : ("LAST_NAME" : String) ≠ "FIRST_NAME")]
          exact aget_aset_self _ _ _
      · intro hand
        have hcond : ¬ (agetD (aset (updateNotes rec c (provNote nm comp)) "NAME" nm)
              "FIRST_NAME" "" = "" ∨
            agetD (aset (updateNotes rec c (provNote nm comp)) "NAME" nm)
              "LAST_NAME" "" = "") := by
          unfold agetD
          rw [aget_aset_ne _ _ (by decide : ("FIRST_NAME" : String) ≠ "NAME"),
            aget_aset_ne _ _ (by decide : ("LAST_NAME" : String) ≠ "NAME")]
          unfold agetD at hF hL
          rw [hF, hL]
          rintro (hc | hc)
          · exact hand.1 hc
          · exact hand.2 hc
        constructor <;>
          (show aget (updateName (updateNotes rec c (provNote nm comp)) nm) _ = _
           unfold updateName
           rw [if_neg h1, if_neg hcond])
        · rw [aget_aset_ne _ _ (by decide : ("FIRST_NAME" : String) ≠ "NAME")]
          exact hfr _ (by decide)
        · rw [aget_aset_ne _ _ (by decide : ("LAST_NAME" : String) ≠ "NAME")]
          exact hfr _ (by decide)

/-- Witness for C4: a stored row already tagged `DUPLICATE` gets the
provenance note appended but no second `DUPLICATE` tag. -/
theorem claim_C4_witness :
    aget (updateExisting [("Notes", "DUPLICATE")] "" "N" "C") "Notes" =
      some ("DUPLICATE" ++ "; " ++ provNote "N" "C") := by
  have h := claim_C4.2.2.1 [("Notes", "DUPLICATE")] "" "N" "C" (by decide)
  rw [h]
  decide

/-! ### Claim C2: the status annotator -/

theorem annotate_aget (m : List (String × Rec)) (b : List String) (t : String) (k : String) :
    aget (annotate m b t) k =
      (aget m k).map (fun r => if k ∈ b then addNote r t else r) := by
  induction m with
  | nil => rfl
  | cons p rest ih =>
    obtain ⟨k1, r1⟩ := p
    have hcons : annotate ((k1, r1) :: rest) b t =
        (if k1 ∈ b then (k1, addNote r1 t) else (k1, r1)) :: annotate rest b t := by
      rw [annotate, List.map_cons]
      rfl
    rw [hcons]
    by_cases hb : k1 ∈ b
    · rw [if_pos hb]
      by_cases hk : k1 = k
      · subst hk
        rw [show aget ((k1, addNote r1 t) :: annotate rest b t) k1 = some (addNote r1 t) from
            if_pos rfl,
          show aget ((k1, r1) :: rest) k1 = some r1 from if_pos rfl]
        rw [show Option.map (fun r => if k1 ∈ b then addNote r t else r) (some r1) =
            some (if k1 ∈ b then addNote r1 t else r1) from rfl, if_pos hb]
      · rw [show aget ((k1, addNote r1 t) :: annotate rest b t) k = aget (annotate rest b t) k
            from if_neg hk,
          show aget ((k1, r1) :: rest) k = aget rest k from if_neg hk]
        exact ih
    · rw [if_neg hb]
      by_cases hk : k1 = k
      · subst hk
        rw [show aget ((k1, r1) :: annotate rest b t) k1 = some r1 from if_pos rfl,
          show aget ((k1, r1) :: rest) k1 = some r1 from if_pos rfl]
        rw [show Option.map (fun r => if k1 ∈ b then addNote r t else r) (some r1) =
            some (if k1 ∈ b then addNote r1 t else r1) from rfl, if_neg hb]
      · rw [show aget ((k1, r1) :: annotate rest b t) k = aget (annotate rest b t) k
            from if_neg hk,
          show aget ((k1, r1) :: rest) k = aget rest k from if_neg hk]
        exact ih

theorem addBounced_valid (ef : String) (s : List String) (row : Rec)
    (hs : ∀ e ∈ s, is_valid_email e = true) :
    ∀ e ∈ addBounced ef s row, is_valid_email e = true := by
  intro e he
  unfold addBounced at he
  cases hv : aget row ef with
  | none =>
    rw [hv] at he
    exact hs e he
  | some v =>
    rw [hv] at he
    dsimp only at he
    by_cases hne : v ≠ ""
    · rw [if_pos hne] at he
      by_cases hval : is_valid_email (pyLowerS (pyStripS v)) = true
      · rw [if_pos hval] at he
        by_cases hmem : pyLowerS (pyStripS v) ∈ s
        · rw [if_pos hmem] at he
          exact hs e he
        · rw [if_neg hmem] at he
          rcases List.mem_append.mp he with h | h
          · exact hs e h
          · rw [List.mem_singleton.mp h]
            exact hval
      · rw [if_neg hval] at he
        exact hs e he
    · rw [if_neg hne] at he
      exact hs e he

theorem foldl_addBounced_valid (ef : String) (rows : List Rec) :
    ∀ acc : List String, (∀ e ∈ acc, is_valid_email e = true) →
      ∀ e ∈ rows.foldl (addBounced ef) acc, is_valid_email e = true := by
  induction rows with
  | nil => exact fun acc h => h
  | cons r rows ih =>
    intro acc hacc
    rw [List.foldl_cons]
    exact ih _ (addBounced_valid ef acc r hacc)

/-- Counterexample to C2: annotating the same merged table twice with the
same bounced set appends the `Bounced` tag twice (the code has no
already-present check in this pass), so a row does not receive the tag
exactly once when the pass is invoked twice in sequence. -/
theorem claim_C2_cex :
    aget (annotate (annotate [("a@b.co", [("EMAIL", "a@b.co")])]
        (buildEmailSet ["Email"] [[("Email", "a@b.co")]]) "Bounced")
        (buildEmailSet ["Email"] [[("Email", "a@b.co")]]) "Bounced") "a@b.co" =
      some [("EMAIL", "a@b.co"), ("Notes", "Bounced; Bounced")] ∧
    occS "Bounced" "Bounced; Bounced" = 2 := by
  decide

/-- C2 (amended): every member of the auxiliary set is a validated address;
one annotation pass appends `Bounced` (semicolon-joined) to the Notes of
exactly the rows whose key is in the set, once per invocation; a second
invocation on the same table appends the tag a second time (the pass is not
idempotent). -/
theorem claim_C2 :
    (∀ (fields : List String) (rows : List Rec) (e : String),
      e ∈ buildEmailSet fields rows → is_valid_email e = true) ∧
    (∀ (m : List (String × Rec)) (b : List String) (k : String) (r : Rec),
      aget m k = some r →
      (k ∈ b → aget (annotate m b "Bounced") k = some (addNote r "Bounced") ∧
        aget (annotate (annotate m b "Bounced") b "Bounced") k =
          some (addNote (addNote r "Bounced") "Bounced")) ∧
      (k ∉ b → aget (annotate m b "Bounced") k = some r)) ∧
    (∀ r : Rec,
      aget (addNote r "Bounced") "Notes" =
        some (if agetD r "Notes" "" = "" then "Bounced"
              else agetD r "Notes" "" ++ "; " ++ "Bounced")) := by
  refine ⟨?_, ?_, fun r => addNote_notes r "Bounced"⟩
  · intro fields rows e he
    unfold buildEmailSet at he
    cases hf : findEmailField fields with
    | none =>
      rw [hf] at he
      simp at he
    | some ef =>
      rw [hf] at he
      exact foldl_addBounced_valid ef rows [] (by simp) e he
  · intro m b k r hm
    constructor
    · intro hk
      constructor
      · rw [annotate_aget, hm]
        simp [hk]
      · rw [annotate_aget, annotate_aget, hm]
        simp [hk]
    · intro hk
      rw [annotate_aget, hm]
      simp [hk]

/-- Witness for C2 at a concrete one-row table and one-element set. -/
theorem claim_C2_witness :
    aget (annotate [("a@b.co", [("EMAIL", "a@b.co")])] ["a@b.co"] "Bounced") "a@b.co" =
      some (addNote [("EMAIL", "a@b.co")] "Bounced") :=
  ((claim_C2.2.1 [("a@b.co", [("EMAIL", "a@b.co")])] ["a@b.co"] "a@b.co"
    [("EMAIL", "a@b.co")] (by decide)).1 (by decide)).1

/-! ### Claim C6: splitEmails -/

theorem classifyEmails_eq (ps : List (List Char)) :
    classifyEmails ps =
      (ps.filter is_valid_emailL, ps.any (fun p => !is_valid_emailL p)) := by
  induction ps with
  | nil => rfl
  | cons p ps ih =>
    by_cases h : is_valid_emailL p = true
    · simp [classifyEmails, h, ih, List.filter_cons, List.any_cons]
    · simp [classifyEmails, h, ih, List.filter_cons, List.any_cons]

/-- C6: `split_emails` returns `([], false)` on empty input, the ordered valid
parts without deduplication, and a flag set exactly when a remaining part
failed validation; the parts are obtained by collapsing separator runs to one
comma, splitting, stripping and dropping empties.  The quoted example holds. -/
theorem claim_C6 :
    split_emails "" = ([], false) ∧
    split_emails "a@b.com; bad, c@d.com" = (["a@b.com", "c@d.com"], true) ∧
    split_emails "a@b.com, a@b.com" = (["a@b.com", "a@b.com"], false) ∧
    ∀ cs : List Char, cs ≠ [] →
      split_emailsL cs =
        ((((splitComma (normSep cs)).map pyStrip).filter (fun p => !p.isEmpty)).filter
            is_valid_emailL,
          (((splitComma (normSep cs)).map pyStrip).filter (fun p => !p.isEmpty)).any
            (fun p => !is_valid_emailL p)) := by
  refine ⟨by decide, by decide, by decide, ?_⟩
  intro cs h
  unfold split_emailsL
  rw [if_neg (by simp [List.isEmpty_iff, h])]
  exact classifyEmails_eq _

/-- Witness for C6 at a one-address input. -/
theorem claim_C6_witness :
    split_emailsL "a@b.co".data = (["a@b.co".data], false) := by
  rw [claim_C6.2.2.2 "a@b.co".data (by decide)]
  decide

/-! ### Claim C10: trailing-newline acceptance of is_valid_email -/

/-- Counterexample to C10: `"a@b.co\n"` is accepted (the `$` anchor matches
before one final newline), but appending one further newline to this accepted
string is rejected, so acceptance is not closed under appending `"\n"`. -/
theorem claim_C10_cex :
    is_valid_email "a@b.co\n" = true ∧ is_valid_email ("a@b.co\n" ++ "\n") = false := by
  decide

/-- C10 (amended): for every accepted string that does not already end in a
newline, the string followed by one `"\n"` is also accepted. -/
theorem claim_C10 :
    ∀ s : String, is_valid_email s = true → s.data.getLast? ≠ some '\n' →
      is_valid_email (s ++ "\n") = true := by
  intro s hv hnl
  show is_valid_emailL (s ++ "\n").data = true
  rw [String.data_append]
  show is_valid_emailL (s.data ++ ['\n']) = true
  unfold is_valid_emailL
  rw [if_pos (List.getLast?_concat s.data), List.dropLast_concat]
  unfold is_valid_email is_valid_emailL at hv
  rwa [if_neg hnl] at hv

/-- Witness for C10 at `"a@b.co"`. -/
theorem claim_C10_witness : is_valid_email ("a@b.co" ++ "\n") = true :=
  claim_C10 "a@b.co" (by decide) (by decide)

/-! ### Claims C7 and C8: splitName -/

theorem subL_cons_false {n : List Char} {c : Char} {l : List Char}
    (h : subL n (c :: l) = false) :
    List.isPrefixOf n (c :: l) = false ∧ subL n l = false :=
  Bool.or_eq_false_iff.mp h

theorem rfind_step (c d : Char) (rest : List Char) :
    rfindCommaSpace (c :: d :: rest) =
      if c = ',' && d = ' ' then
        match rfindCommaSpace (d :: rest) with
        | some k => some (k + 1)
        | none => some 0
      else
        match rfindCommaSpace (d :: rest) with
        | some k => some (k + 1)
        | none => none := rfl

theorem rfind_none (l : List Char) (h : subL [',', ' '] l = false) :
    rfindCommaSpace l = none := by
  induction l with
  | nil => rfl
  | cons c rest ih =>
    cases rest with
    | nil => rfl
    | cons d rest2 =>
      obtain ⟨h1, h2⟩ := subL_cons_false h
      have hcond : ¬((c = ',' && d = ' ') = true) := by
        intro hc
        simp only [Bool.and_eq_true, decide_eq_true_eq] at hc
        obtain ⟨hc1, hc2⟩ := hc
        subst hc1
        subst hc2
        simp [List.isPrefixOf] at h1
      rw [rfind_step, if_neg hcond, ih h2]

/-- `rfind(', ')` returns the index of the last occurrence: the split position
of a decomposition whose right part contains no further `", "`. -/
theorem rfind_last (a b : List Char) (h : subL [',', ' '] b = false) :
    rfindCommaSpace (a ++ ',' :: ' ' :: b) = some a.length := by
  induction a with
  | nil =>
    show rfindCommaSpace (',' :: ' ' :: b) = some 0
    have hn : rfindCommaSpace (' ' :: b) = none := by
      apply rfind_none
      rw [show subL [',', ' '] (' ' :: b) =
        (List.isPrefixOf [',', ' '] (' ' :: b) || subL [',', ' '] b) from rfl, h]
      simp [List.isPrefixOf]
    rw [rfind_step, if_pos (by decide), hn]
  | cons x a' ih =>
    show rfindCommaSpace (x :: (a' ++ ',' :: ' ' :: b)) = some (a'.length + 1)
    cases ha : a' with
    | nil =>
      subst ha
      simp only [List.nil_append] at ih ⊢
      rw [rfind_step, if_neg (by simp), ih]
    | cons y a'' =>
      subst ha
      have ih2 : rfindCommaSpace (y :: (a'' ++ ',' :: ' ' :: b)) =
          some (a''.length + 1) := ih
      rw [List.cons_append, rfind_step, ih2]
      split <;> rfl

/-- The comma branch of `split_name`: splitting happens at the last `", "`,
the left part becomes the cleaned title-cased last name, the right part goes
through the nickname replacement before cleaning and title-casing. -/
theorem split_nameL_comma (a b : List Char) (h : subL [',', ' '] b = false) :
    split_nameL (a ++ ',' :: ' ' :: b) =
      (pyTitle (clean_name_part (pyStrip a)),
       pyTitle (clean_name_part (nickProcess (pyStrip b)))) := by
  unfold split_nameL
  rw [if_neg (by simp), rfind_last a b h]
  dsimp only
  have hdrop : (a ++ ',' :: ' ' :: b).drop (a.length + 2) = b := by
    rw [show a ++ ',' :: ' ' :: b = (a ++ [',', ' ']) ++ b from by simp]
    exact List.drop_left' (by simp)
  rw [hdrop, List.take_left]

theorem drop_takeWhile_length (p : Char → Bool) (l : List Char) :
    l.drop (l.takeWhile p).length = l.dropWhile p := by
  induction l with
  | cons c rest ih =>
    by_cases hc : p c = true
    · simp [List.takeWhile_cons, List.dropWhile_cons, hc, ih]
    · simp [List.takeWhile_cons, List.dropWhile_cons, hc]
  | nil => rfl

/-- Soundness of one anchored attempt of the nickname regex: a match
decomposes the string into a word, optional whitespace, and a parenthesized
word followed by the returned remainder. -/
theorem nickMatchAt_sound {cs w n rest : List Char}
    (h : nickMatchAt cs = some (w, n, rest)) :
    ∃ sp, cs = w ++ sp ++ '(' :: (n ++ ')' :: rest) ∧ w ≠ [] ∧ n ≠ [] ∧
      w.all isWordC = true ∧ n.all isWordC = true ∧ sp.all isPySpace = true := by
  simp only [nickMatchAt] at h
  by_cases hw : (cs.takeWhile isWordC).isEmpty = true
  · rw [if_pos hw] at h
    simp at h
  · rw [if_neg hw] at h
    rw [drop_takeWhile_length, drop_takeWhile_length] at h
    split at h
    · rename_i r3 heq2
      by_cases hn3 : (r3.takeWhile isWordC).isEmpty = true
      · rw [if_pos hn3] at h
        simp at h
      · rw [if_neg hn3] at h
        rw [drop_takeWhile_length] at h
        split at h
        · rename_i r5 heq4
          rw [Option.some_inj, Prod.mk.injEq, Prod.mk.injEq] at h
          obtain ⟨h1, h2, h3⟩ := h
          subst h1
          subst h2
          subst h3
          refine ⟨(cs.dropWhile isWordC).takeWhile isPySpace, ?_, ?_, ?_,
            List.all_takeWhile, List.all_takeWhile, List.all_takeWhile⟩
          · conv_lhs =>
              rw [← List.takeWhile_append_dropWhile isWordC cs,
                ← List.takeWhile_append_dropWhile isPySpace (List.dropWhile isWordC cs), heq2,
                ← List.takeWhile_append_dropWhile isWordC r3, heq4]
            rw [List.append_assoc]
          · simpa [List.isEmpty_iff] using hw
          · simpa [List.isEmpty_iff] using hn3
        · simp at h
    · simp at h

/-- Soundness of the leftmost search: the returned prefix is exactly the text
before the matched pattern. -/
theorem nickSearch_sound : ∀ (cs pre w n rest : List Char),
    nickSearch cs = some (pre, w, n, rest) →
    ∃ sp, cs = pre ++ (w ++ sp ++ '(' :: (n ++ ')' :: rest)) ∧ w ≠ [] ∧ n ≠ [] := by
  intro cs
  induction cs with
  | nil =>
    intro pre w n rest h
    simp [nickSearch] at h
  | cons c cs ih =>
    intro pre w n rest h
    simp only [nickSearch] at h
    cases hm : nickMatchAt (c :: cs) with
    | some t =>
      obtain ⟨w0, n0, r0⟩ := t
      rw [hm] at h
      dsimp only at h
      rw [Option.some_inj, Prod.mk.injEq, Prod.mk.injEq, Prod.mk.injEq] at h
      obtain ⟨h1, h2, h3, h4⟩ := h
      subst h1
      subst h2
      subst h3
      subst h4
      obtain ⟨sp, hdec, hw, hn, -, -, -⟩ := nickMatchAt_sound hm
      exact ⟨sp, by rw [List.nil_append]; exact hdec, hw, hn⟩
    | none =>
      rw [hm] at h
      cases hs : nickSearch cs with
      | none =>
        rw [hs] at h
        simp at h
      | some t =>
        obtain ⟨p1, w1, n1, r1⟩ := t
        rw [hs] at h
        dsimp only at h
        rw [Option.some_inj, Prod.mk.injEq, Prod.mk.injEq, Prod.mk.injEq] at h
        obtain ⟨h1, h2, h3, h4⟩ := h
        subst h1
        subst h2
        subst h3
        subst h4
        obtain ⟨sp, hdec, hw, hn⟩ := ih p1 w1 n1 r1 hs
        exact ⟨sp, by rw [List.cons_append, ← hdec], hw, hn⟩

/-- C7: for every name containing `", "` (written as a decomposition at the
last occurrence, i.e. with no `", "` in the right part), `split_name` splits
there: the left text becomes the last-name candidate and the right text the
first-name candidate, each cleaned and title-cased (the first-name candidate
after the nickname step).  The quoted example holds. -/
theorem claim_C7 :
    (∀ a b : List Char, subL [',', ' '] b = false →
      split_nameL (a ++ ',' :: ' ' :: b) =
        (pyTitle (clean_name_part (pyStrip a)),
         pyTitle (clean_name_part (nickProcess (pyStrip b))))) ∧
    split_name "O'Neil, Sean, Jr" = ("O'Neil, Sean", "Jr") := by
  exact ⟨split_nameL_comma, by decide⟩

/-- Witness for C7 at a concrete two-part name. -/
theorem claim_C7_witness :
    split_nameL ("Ab".data ++ ',' :: ' ' :: "Cd".data) = ("Ab".data, "Cd".data) := by
  rw [claim_C7.1 "Ab".data "Cd".data (by decide)]
  decide

/-- Counterexample to C8: in `"Smith, John Robert (Bob) Jr"` the nickname
pattern matches at `"Robert (Bob)"`; replacing only the formal word inside the
candidate would give first name `"John Bob Jr"`, but the code rebuilds the
first name from the nickname and trailing remainder alone, discarding the
leading `"John "`. -/
theorem claim_C8_cex :
    split_name "Smith, John Robert (Bob) Jr" = ("Smith", "Bob Jr") ∧
    (split_name "Smith, John Robert (Bob) Jr").2 ≠ "John Bob Jr" := by
  decide

/-- C8 (amended): when the first-name candidate contains the nickname pattern
(a word, optional whitespace, and a parenthesized word — the leftmost such
match), the first name becomes the nickname followed by the stripped trailing
remainder, cleaned and title-cased; any text before the matched formal word
is discarded.  The quoted example holds. -/
theorem claim_C8 :
    (∀ cs pre w n rest : List Char, nickSearch cs = some (pre, w, n, rest) →
      ∃ sp, cs = pre ++ (w ++ sp ++ '(' :: (n ++ ')' :: rest)) ∧ w ≠ [] ∧ n ≠ []) ∧
    (∀ a b pre w n rest : List Char, subL [',', ' '] b = false →
      nickSearch (pyStrip b) = some (pre, w, n, rest) →
      (split_nameL (a ++ ',' :: ' ' :: b)).2 =
        pyTitle (clean_name_part (nickCombine n rest))) ∧
    split_name "Smith, Robert (Bob) Jr" = ("Smith", "Bob Jr") := by
  refine ⟨nickSearch_sound, ?_, by decide⟩
  intro a b pre w n rest h hn
  rw [split_nameL_comma a b h]
  dsimp only
  unfold nickProcess
  rw [hn]

/-- Witness for C8 at a nickname-bearing name. -/
theorem claim_C8_witness :
    (split_nameL ("Smith".data ++ ',' :: ' ' :: "Robert (Bob) Jr".data)).2 = "Bob Jr".data := by
  rw [claim_C8.2.1 "Smith".data "Robert (Bob) Jr".data "".data "Robert".data "Bob".data
    " Jr".data (by decide) (by decide)]
  decide

/-! ### Claim C5: every key of the merged map is a valid lower-cased address -/

/-- The C5 invariant of the keyed map: every key is a syntactically valid,
lower-cased email address. -/
def keysOk (m : List (String × Rec)) : Prop :=
  ∀ p ∈ m, is_valid_email p.1 = true ∧ pyLowerS p.1 = p.1

theorem aset_cons_eq {α : Type} (k1 : String) (v1 : α) (rest : List (String × α))
    (k : String) (v : α) :
    aset ((k1, v1) :: rest) k v =
      if k1 = k then (k, v) :: rest else (k1, v1) :: aset rest k v := rfl

theorem keysOk_aset {m : List (String × Rec)} {k : String} {v : Rec}
    (hm : keysOk m) (hk1 : is_valid_email k = true) (hk2 : pyLowerS k = k) :
    keysOk (aset m k v) := by
  induction m with
  | nil =>
    intro p hp
    rw [show aset ([] : List (String × Rec)) k v = [(k, v)] from rfl,
      List.mem_singleton] at hp
    rw [hp]
    exact ⟨hk1, hk2⟩
  | cons q rest ih =>
    obtain ⟨k1, v1⟩ := q
    rw [aset_cons_eq]
    by_cases h : k1 = k
    · rw [if_pos h]
      intro p hp
      rcases List.mem_cons.mp hp with hp | hp
      · rw [hp]
        exact ⟨hk1, hk2⟩
      · exact hm p (List.mem_cons_of_mem _ hp)
    · rw [if_neg h]
      intro p hp
      rcases List.mem_cons.mp hp with hp | hp
      · rw [hp]
        exact hm (k1, v1) (List.mem_cons_self _ _)
      · exact ih (fun q hq => hm q (List.mem_cons_of_mem _ hq)) p hp

theorem loadStep_fst {st : List (String × Rec) × List Rec} (row : Rec)
    (h : keysOk st.1) : keysOk (loadStep st row).1 := by
  unfold loadStep
  cases aget row "EMAIL" with
  | none => exact h
  | some e =>
    dsimp only
    by_cases h1 : e ≠ ""
    · rw [if_pos h1]
      by_cases h2 : is_valid_email (pyLowerS e) = true
      · rw [if_pos h2]
        exact keysOk_aset h h2 (pyLowerS_idem e)
      · rw [if_neg h2]
        exact h
    · rw [if_neg h1]
      exact h

theorem loadStep_snd (st : List (String × Rec) × List Rec) (row : Rec) :
    (loadStep st row).2 = st.2 ++ (routeNoEmail row).toList := by
  unfold loadStep routeNoEmail
  cases aget row "EMAIL" with
  | none => simp
  | some e =>
    dsimp only
    by_cases h1 : e ≠ ""
    · rw [if_pos h1, if_pos h1]
      by_cases h2 : is_valid_email (pyLowerS e) = true
      · rw [if_pos h2, if_pos h2]
        simp
      · rw [if_neg h2, if_neg h2]
        simp
    · rw [if_neg h1, if_neg h1]
      simp

theorem foldl_loadStep (rows : List Rec) :
    ∀ st : List (String × Rec) × List Rec, keysOk st.1 →
      keysOk ((rows.foldl loadStep st).1) ∧
      (rows.foldl loadStep st).2 = st.2 ++ rows.filterMap routeNoEmail := by
  induction rows with
  | nil =>
    intro st h
    exact ⟨h, by simp⟩
  | cons r rows ih =>
    intro st h
    rw [List.foldl_cons]
    obtain ⟨h1, h2⟩ := ih (loadStep st r) (loadStep_fst r h)
    refine ⟨h1, ?_⟩
    rw [h2, loadStep_snd, List.filterMap_cons]
    cases hr : routeNoEmail r with
    | none => simp [Option.toList]
    | some x => simp [Option.toList]

theorem split_emails_valid {e s : String} (h : e ∈ (split_emails s).1) :
    is_valid_email e = true := by
  unfold split_emails at h
  obtain ⟨p, hp, rfl⟩ := List.mem_map.mp h
  show is_valid_emailL p = true
  unfold split_emailsL at hp
  by_cases hE : s.data.isEmpty = true
  · rw [if_pos hE] at hp
    simp at hp
  · rw [if_neg hE] at hp
    rw [classifyEmails_eq] at hp
    exact (List.mem_filter.mp hp).2

theorem procEmail_keysOk (fieldnames : List String) {m : List (String × Rec)} (row : Rec)
    {e : String} (nv : Nat) (inv : Bool) (hm : keysOk m) (he : is_valid_email e = true) :
    keysOk (procEmail fieldnames m row e nv inv) := by
  have hv : is_valid_email (pyLowerS e) = true := by
    rw [is_valid_email_lower]
    exact he
  cases hg : aget m (pyLowerS e) with
  | some rec =>
    simp only [procEmail, hg]
    exact keysOk_aset hm hv (pyLowerS_idem e)
  | none =>
    simp only [procEmail, hg]
    exact keysOk_aset hm hv (pyLowerS_idem e)

theorem foldl_procEmail_keysOk (fieldnames : List String) (row : Rec) (nv : Nat)
    (inv : Bool) :
    ∀ (es : List String) (m : List (String × Rec)), keysOk m →
      (∀ e ∈ es, is_valid_email e = true) →
      keysOk (es.foldl (fun m1 e1 => procEmail fieldnames m1 row e1 nv inv) m) := by
  intro es
  induction es with
  | nil => exact fun m h _ => h
  | cons e es ih =>
    intro m hm hes
    rw [List.foldl_cons]
    exact ih _ (procEmail_keysOk fieldnames row nv inv hm (hes e (List.mem_cons_self _ _)))
      (fun e1 he1 => hes e1 (List.mem_cons_of_mem _ he1))

theorem noEmailCase_merged (st : MState) (row : Rec) (tag : String) :
    (noEmailCase st row tag).merged = st.merged := by
  unfold noEmailCase
  cases st.noCons with
  | some r => rfl
  | none => rfl

theorem procNewRow_keysOk (fieldnames : List String) (st : MState) (row : Rec)
    (h : keysOk st.merged) : keysOk (procNewRow fieldnames st row).merged := by
  unfold procNewRow
  cases aget row "EMAIL" with
  | none =>
    rw [noEmailCase_merged]
    exact h
  | some e =>
    dsimp only
    by_cases h1 : e = ""
    · rw [if_pos h1, noEmailCase_merged]
      exact h
    · rw [if_neg h1]
      by_cases h2 : (split_emails e).1.isEmpty = true
      · rw [if_pos h2, noEmailCase_merged]
        exact h
      · rw [if_neg h2]
        exact foldl_procEmail_keysOk fieldnames row _ _ _ _ h
          (fun e1 he1 => split_emails_valid he1)

theorem backfill_keysOk {m : List (String × Rec)} (h : keysOk m) : keysOk (backfill m) := by
  intro p hp
  obtain ⟨q, hq, hpq⟩ := List.mem_map.mp hp
  have := h q hq
  rw [← hpq]
  exact this

theorem foldl_procNewRow_keysOk (fieldnames : List String) (rows : List Rec) :
    ∀ st : MState, keysOk st.merged →
      keysOk ((rows.foldl (procNewRow fieldnames) st).merged) := by
  induction rows with
  | nil => exact fun st h => h
  | cons r rows ih =>
    intro st h
    rw [List.foldl_cons]
    exact ih _ (procNewRow_keysOk fieldnames st r h)

/-- C5: every key of the merged map is a syntactically valid, lower-cased
address — after loading the authoritative table, across every incoming-row
step, and in the final merged state (hence valid-or-sentinel as claimed; the
sentinel in fact never appears as a map key); rows of the authoritative table
with a non-empty email failing validation are routed, in order, to the
separate no-email row sequence instead. -/
theorem claim_C5 :
    (∀ (rows : List Rec) (p : String × Rec), p ∈ (loadExisting rows).1 →
      is_valid_email p.1 = true ∧ pyLowerS p.1 = p.1) ∧
    (∀ rows : List Rec, (loadExisting rows).2 = rows.filterMap routeNoEmail) ∧
    (∀ (fieldnames : List String) (st : MState) (row : Rec),
      (∀ p ∈ st.merged, is_valid_email p.1 = true ∧ pyLowerS p.1 = p.1) →
      ∀ p ∈ (procNewRow fieldnames st row).merged,
        is_valid_email p.1 = true ∧ pyLowerS p.1 = p.1) ∧
    (∀ (fieldnames : List String) (ex newRows : List Rec) (p : String × Rec),
      p ∈ (mergeAll fieldnames ex newRows).merged →
      (is_valid_email p.1 = true ∨ p.1 = "NO EMAIL") ∧ pyLowerS p.1 = p.1) := by
  have hload : ∀ rows : List Rec, keysOk (loadExisting rows).1 ∧
      (loadExisting rows).2 = [] ++ rows.filterMap routeNoEmail :=
    fun rows => foldl_loadStep rows ([], []) (fun p hp => by simp at hp)
  refine ⟨?_, ?_, ?_, ?_⟩
  · exact fun rows => (hload rows).1
  · intro rows
    rw [(hload rows).2, List.nil_append]
  · exact fun fieldnames st row h => procNewRow_keysOk fieldnames st row h
  · intro fieldnames ex newRows p hp
    have h := foldl_procNewRow_keysOk fieldnames newRows
      ⟨backfill (loadExisting ex).1, (loadExisting ex).2, none⟩
      (backfill_keysOk (hload ex).1) p hp
    exact ⟨Or.inl h.1, h.2⟩

/-- Witness for C5 at a one-row authoritative table and empty incoming
table. -/
theorem claim_C5_witness :
    is_valid_email "a@b.co" = true ∨ ("a@b.co" : String) = "NO EMAIL" :=
  (claim_C5.2.2.2 ["EMAIL"] [[("EMAIL", "A@B.CO")]] []
    ("a@b.co", [("EMAIL", "A@B.CO")]) (by decide)).1

end Utilities
